import Mathlib

/-!
Verification of the client-side streaming answer pipeline of a
knowledge-base chat UI.  The development shallowly embeds

  * the SSE stream client `createChatStream` (frame decoding from text
    chunks, event classification and dispatch, error handling,
    synthesized terminal event),
  * the per-mode session controller of the chat page (`handleSend`,
    `handleStop`, `handleRetry`, the stream event handlers and the
    animation-frame render throttle), and
  * the two-mode chat store (`agentMessages` / `normalMessages`,
    generation flags, abort handles)

as executable Lean functions over `List Char` strings, and proves the
stated properties about them.
-/

set_option autoImplicit false

namespace StreamPipeline

/-- Strings are modelled as lists of characters. -/
abbrev Str := List Char

/-- Whitespace set used by the JavaScript `String.trim`. -/
def jsWsChar (c : Char) : Bool :=
  c = ' ' || c = '\t' || c = '\n' || c = '\r' || c = '\x0c' || c = '\x0b'

/-- Model of `String.prototype.trim`. -/
def jsTrim (s : Str) : Str :=
  ((s.dropWhile jsWsChar).reverse.dropWhile jsWsChar).reverse

/-- Splitting a character stream at `'\n'`, keeping empty fragments,
mirroring `buffer.split('\n')`.  The result is always nonempty; the last
element is the trailing (possibly empty) fragment after the last
terminator. -/
def splitLines : Str → List Str
  | [] => [[]]
  | c :: rest =>
    if c = '\n' then [] :: splitLines rest
    else
      match splitLines rest with
      | [] => [[c]]
      | l :: ls => (c :: l) :: ls

/-! ## JSON values and a model of `JSON.parse` -/

/-- JSON values as produced by `JSON.parse`.  Numbers keep their lexeme;
object fields are kept with unique keys in insertion order (later
duplicate keys overwrite the value in place, as in JavaScript). -/
inductive Json where
  | null
  | jbool (b : Bool)
  | jnum (lexeme : Str)
  | jstr (s : Str)
  | jarr (elems : List Json)
  | jobj (fields : List (Str × Json))

/-- Parse failures of `JSON.parse`, abstracted to the two classes the
client distinguishes: input exhausted versus an unexpected token. -/
inductive JsonErr where
  | endOfInput
  | unexpectedToken (c : Char)
deriving DecidableEq

/-- The `message` of the `SyntaxError` thrown by `JSON.parse`. -/
def JsonErr.message : JsonErr → Str
  | .endOfInput => ("Unexpected end of JSON input".data)
  | .unexpectedToken c => (("Unexpected token ".data) ++ [c] ++ (" in JSON".data))

/-- JSON insignificant whitespace. -/
def jsonWs (c : Char) : Bool :=
  c = ' ' || c = '\t' || c = '\n' || c = '\r'

def skipJsonWs (s : Str) : Str := s.dropWhile jsonWs

def escChar : Char → Option Char
  | '"' => some '"'
  | '\\' => some '\\'
  | '/' => some '/'
  | 'b' => some '\x08'
  | 'f' => some '\x0c'
  | 'n' => some '\n'
  | 'r' => some '\r'
  | 't' => some '\t'
  | _ => none

def hexVal (c : Char) : Nat :=
  if c.isDigit then c.toNat - '0'.toNat
  else if 'a' ≤ c ∧ c ≤ 'f' then c.toNat - 'a'.toNat + 10
  else if 'A' ≤ c ∧ c ≤ 'F' then c.toNat - 'A'.toNat + 10
  else 0

def isHex (c : Char) : Bool :=
  c.isDigit || ('a' ≤ c && c ≤ 'f') || ('A' ≤ c && c ≤ 'F')

/-- Body of a JSON string literal, after the opening quote. -/
def parseStringBody : Nat → Str → Except JsonErr (Str × Str)
  | _, [] => .error .endOfInput
  | 0, _ => .error .endOfInput
  | fuel + 1, c :: rest =>
    if c = '"' then .ok ([], rest)
    else if c = '\\' then
      match rest with
      | [] => .error .endOfInput
      | e :: rest2 =>
        match escChar e with
        | some ch =>
          (parseStringBody fuel rest2).map (fun p => (ch :: p.1, p.2))
        | none =>
          if e = 'u' then
            match rest2 with
            | h1 :: h2 :: h3 :: h4 :: rest3 =>
              if isHex h1 && isHex h2 && isHex h3 && isHex h4 then
                (parseStringBody fuel rest3).map
                  (fun p =>
                    (Char.ofNat
                        (((hexVal h1 * 16 + hexVal h2) * 16 + hexVal h3) * 16
                          + hexVal h4) :: p.1, p.2))
              else .error (.unexpectedToken e)
            | _ => .error .endOfInput
          else .error (.unexpectedToken e)
    else (parseStringBody fuel rest).map (fun p => (c :: p.1, p.2))

def numChar (c : Char) : Bool :=
  c.isDigit || c = '.' || c = 'e' || c = 'E' || c = '+' || c = '-'

/-- Number lexeme, consumed leniently; at least one digit is required. -/
def parseNumber (s : Str) : Except JsonErr (Json × Str) :=
  let lex := s.takeWhile numChar
  if lex.any Char.isDigit then .ok (.jnum lex, s.dropWhile numChar)
  else
    match s with
    | c :: _ => .error (.unexpectedToken c)
    | [] => .error .endOfInput

/-- Match a fixed literal suffix such as `rue` of `true`. -/
def matchLitAux : Str → Str → Except JsonErr Str
  | [], rest => .ok rest
  | _ :: _, [] => .error .endOfInput
  | e :: es, c :: cs =>
    if c = e then matchLitAux es cs else .error (.unexpectedToken c)

/-- Insert or overwrite a field, as object-literal assembly does in the
JavaScript runtime (duplicate keys keep the first position, last value). -/
def upsert (fs : List (Str × Json)) (k : Str) (v : Json) : List (Str × Json) :=
  if fs.any (fun p => p.1 == k) then
    fs.map (fun p => if p.1 == k then (k, v) else p)
  else fs ++ [(k, v)]

def braceOpen : Char := Char.ofNat 123
def braceClose : Char := Char.ofNat 125

mutual

/-- Parse one JSON value (leading whitespace allowed). -/
def parseValue : Nat → Str → Except JsonErr (Json × Str)
  | 0, _ => .error .endOfInput
  | fuel + 1, s =>
    match skipJsonWs s with
    | [] => .error .endOfInput
    | c :: rest =>
      if c = '"' then
        (parseStringBody fuel rest).map (fun p => (.jstr p.1, p.2))
      else if c = braceOpen then
        match skipJsonWs rest with
        | [] => .error .endOfInput
        | c2 :: rest2 =>
          if c2 = braceClose then .ok (.jobj [], rest2)
          else parseMembers fuel [] (c2 :: rest2)
      else if c = '[' then
        match skipJsonWs rest with
        | [] => .error .endOfInput
        | c2 :: rest2 =>
          if c2 = ']' then .ok (.jarr [], rest2)
          else parseElems fuel [] (c2 :: rest2)
      else if c = 't' then
        (matchLitAux ("rue".data) rest).map (fun r => (.jbool true, r))
      else if c = 'f' then
        (matchLitAux ("alse".data) rest).map (fun r => (.jbool false, r))
      else if c = 'n' then
        (matchLitAux ("ull".data) rest).map (fun r => (.null, r))
      else if c.isDigit || c = '-' then
        parseNumber (c :: rest)
      else .error (.unexpectedToken c)

/-- Parse the members of an object, positioned at the start of a key. -/
def parseMembers : Nat → List (Str × Json) → Str → Except JsonErr (Json × Str)
  | 0, _, _ => .error .endOfInput
  | fuel + 1, acc, s =>
    match skipJsonWs s with
    | [] => .error .endOfInput
    | c :: rest =>
      if c = '"' then
        match parseStringBody fuel rest with
        | .error e => .error e
        | .ok (k, r1) =>
          match skipJsonWs r1 with
          | [] => .error .endOfInput
          | c2 :: r2 =>
            if c2 = ':' then
              match parseValue fuel r2 with
              | .error e => .error e
              | .ok (v, r3) =>
                let acc2 := upsert acc k v
                match skipJsonWs r3 with
                | [] => .error .endOfInput
                | c3 :: r4 =>
                  if c3 = ',' then parseMembers fuel acc2 r4
                  else if c3 = braceClose then .ok (.jobj acc2, r4)
                  else .error (.unexpectedToken c3)
            else .error (.unexpectedToken c2)
      else .error (.unexpectedToken c)

/-- Parse the elements of an array, positioned at the start of a value. -/
def parseElems : Nat → List Json → Str → Except JsonErr (Json × Str)
  | 0, _, _ => .error .endOfInput
  | fuel + 1, acc, s =>
    match parseValue fuel s with
    | .error e => .error e
    | .ok (v, r1) =>
      match skipJsonWs r1 with
      | [] => .error .endOfInput
      | c :: r2 =>
        if c = ',' then parseElems fuel (acc ++ [v]) r2
        else if c = ']' then .ok (.jarr (acc ++ [v]), r2)
        else .error (.unexpectedToken c)

end

/-- Model of `JSON.parse`: one value, then only trailing whitespace. -/
def jsonParse (s : Str) : Except JsonErr Json :=
  match parseValue (2 * s.length + 4) s with
  | .error e => .error e
  | .ok (v, rest) =>
    match skipJsonWs rest with
    | [] => .ok v
    | c :: _ => .error (.unexpectedToken c)

/-! ## JavaScript object-operation models used by the dispatcher -/

/-- Canonical numeral keys, for the `in` operator on arrays. -/
def natKey : Str → Option Nat
  | [] => none
  | s =>
    if s.all Char.isDigit && (s.head? ≠ some '0' || s.length = 1) then
      some (s.foldl (fun n c => n * 10 + (c.toNat - '0'.toNat)) 0)
    else none

/-- `message` of the `TypeError` raised by `'k' in primitive`. -/
def inOpTypeErrMsg : Str :=
  ("Cannot use in operator to search in a non-object".data)

/-- `message` of the `TypeError` raised by reading a property of `null`. -/
def nullReadMsg : Str := ("Cannot read properties of null".data)

/-- The JavaScript `in` operator: key presence on objects and arrays,
a thrown `TypeError` (the error message) on any other operand. -/
def Json.inOp (d : Json) (k : Str) : Except Str Bool :=
  match d with
  | .jobj fs => .ok (fs.any (fun p => p.1 == k))
  | .jarr xs =>
    .ok ((k == ("length".data)) ||
      (match natKey k with
       | some n => decide (n < xs.length)
       | none => false))
  | _ => .error inOpTypeErrMsg

/-- Property read `d.k` (on non-objects it yields `undefined`, here
`none`; reading from `null` is handled separately by the caller). -/
def Json.prop (d : Json) (k : Str) : Option Json :=
  match d with
  | .jobj fs => (fs.find? (fun p => p.1 == k)).map Prod.snd
  | _ => none

/-- `Object.keys(d).length` for objects and arrays (the only operands on
which the client reaches this call). -/
def Json.keysLen : Json → Nat
  | .jobj fs => fs.length
  | .jarr xs => xs.length
  | _ => 0

/-- JavaScript truthiness of a parsed JSON value. -/
def Json.truthy : Json → Bool
  | .null => false
  | .jbool b => b
  | .jnum lex => !(lex.all (fun c => c = '0' || c = '.' || c = '-'))
  | .jstr s => !(s.isEmpty)
  | .jarr _ => true
  | .jobj _ => true

def joinCommas : List Str → Str
  | [] => []
  | [s] => s
  | s :: rest => s ++ [','] ++ joinCommas rest

mutual

/-- JavaScript string coercion `String(d)`, as applied by the `Error`
constructor to a non-string argument (arrays stringify their elements
joined by commas). -/
def Json.coerce : Json → Str
  | .null => ("null".data)
  | .jbool true => ("true".data)
  | .jbool false => ("false".data)
  | .jnum lex => lex
  | .jstr s => s
  | .jobj _ => ("[object Object]".data)
  | .jarr xs => joinCommas (Json.coerceList xs)

/-- Elementwise string coercion of an array's members. -/
def Json.coerceList : List Json → List Str
  | [] => []
  | x :: xs => Json.coerce x :: Json.coerceList xs

end

/-- The message of the error thrown for an `error`-tagged frame:
`new Error(eventData.error || eventData.message || 'Unknown error')`,
including the `TypeError` raised when the payload is `null`. -/
def errorTagMessage (d : Json) : Str :=
  match d with
  | .null => nullReadMsg
  | _ =>
    match d.prop ("error".data) with
    | some v =>
      if v.truthy then v.coerce
      else
        match d.prop ("message".data) with
        | some w => if w.truthy then w.coerce else ("Unknown error".data)
        | none => ("Unknown error".data)
    | none =>
      match d.prop ("message".data) with
      | some w => if w.truthy then w.coerce else ("Unknown error".data)
      | none => ("Unknown error".data)

/-! ## The stream client: frame decoding and event dispatch -/

/-- One handler invocation made by `createChatStream`. -/
inductive SSEEvent where
  | agentThought (d : Json)
  | ragResult (d : Json)
  | answerChunk (d : Json)
  | done (d : Json)
  | errorEv (message : Str)

/-- Short-circuiting `tag === '…' || shapeTest`, where the shape test may
throw (`Except.error` carries the thrown message). -/
def orShape (tagMatch : Bool) (shape : Except Str Bool) : Except Str Bool :=
  if tagMatch then .ok true else shape

/-- `'content' in eventData && typeof eventData.content === 'string'`. -/
def contentShape (d : Json) : Except Str Bool := do
  let b ← d.inOp ("content".data)
  pure (b && (match d.prop ("content".data) with
              | some (.jstr _) => true
              | _ => false))

/-- `'usage' in eventData || Object.keys(eventData).length === 0`. -/
def usageShape (d : Json) : Except Str Bool := do
  let b ← d.inOp ("usage".data)
  pure (b || decide (d.keysLen = 0))

/-- The classification chain of `createChatStream` applied to a parsed
payload, in source order: the `error` tag throws; then the four
`tag-or-shape` branches are tried in the order thought, rag, answer,
done.  Returns the dispatched event (if any branch fired) and whether
`isDone` is set; a thrown error is the `Except.error` message. -/
def processParsed (tag : Option Str) (d : Json) :
    Except Str (Option SSEEvent × Bool) :=
  if tag == some ("error".data) then .error (errorTagMessage d)
  else
    match orShape (tag == some ("thought".data)) (d.inOp ("step".data)) with
    | .error e => .error e
    | .ok true => .ok (some (.agentThought d), false)
    | .ok false =>
      match orShape (tag == some ("rag".data)) (d.inOp ("citations".data)) with
      | .error e => .error e
      | .ok true => .ok (some (.ragResult d), false)
      | .ok false =>
        match orShape (tag == some ("answer".data)) (contentShape d) with
        | .error e => .error e
        | .ok true => .ok (some (.answerChunk d), false)
        | .ok false =>
          match orShape (tag == some ("done".data)) (usageShape d) with
          | .error e => .error e
          | .ok true => .ok (some (.done d), true)
          | .ok false => .ok (none, false)

/-- The whole `try` body for a nonempty data payload: `JSON.parse`
followed by classification; any throw lands in the shared `catch`. -/
def tryFrame (tag : Option Str) (dataStr : Str) :
    Except Str (Option SSEEvent × Bool) :=
  match jsonParse dataStr with
  | .error e => .error e.message
  | .ok d => processParsed tag d

/-- Decoder and dispatcher state that lives across lines: the pending
event tag, the `isDone` flag, whether processing returned early, and the
handler invocations made so far. -/
structure LineState where
  currentEventType : Option Str
  isDone : Bool
  stopped : Bool
  events : List SSEEvent

def initLineState : LineState :=
  { currentEventType := none, isDone := false, stopped := false, events := [] }

def eoiMsg : Str := ("Unexpected end of JSON input".data)

/-- Processing of one complete line of the stream, mirroring the body of
`for (const line of lines)` in `createChatStream` (including the early
`return` after `handlers.onError`). -/
def processLine (s : LineState) (line : Str) : LineState :=
  if s.stopped then s
  else if ("event:".data).isPrefixOf line then
    { s with currentEventType := some (jsTrim (line.drop 6)) }
  else if ("data:".data).isPrefixOf line then
    let dataStr := jsTrim (line.drop 5)
    if dataStr = [] then s
    else
      match tryFrame s.currentEventType dataStr with
      | .ok (oe, setDone) =>
        { s with
          events := s.events ++ oe.toList
          isDone := s.isDone || setDone
          currentEventType := none }
      | .error msg =>
        if (s.currentEventType == some ("error".data)) ||
            (!(msg == []) && !(msg == eoiMsg)) then
          { s with stopped := true, events := s.events ++ [.errorEv msg] }
        else s
  else s

/-- Full decoder state: the line machine plus the carry-over buffer. -/
structure StreamState where
  lineSt : LineState
  buffer : Str

def initStreamState : StreamState := { lineSt := initLineState, buffer := [] }

/-- One iteration of the read loop on a newly arrived text chunk: append
to the carry-over buffer, split on `'\n'`, hold back the final fragment,
process every complete line. -/
def processChunk (s : StreamState) (chunk : Str) : StreamState :=
  let ls := splitLines (s.buffer ++ chunk)
  { lineSt := (ls.dropLast).foldl processLine s.lineSt
    buffer := ls.getLastD [] }

def processChunks (chunks : List Str) : StreamState :=
  chunks.foldl processChunk initStreamState

/-- The handler invocations produced by the whole read loop on a chunk
sequence, including the `onDone({})` synthesized when the transport ends
without a terminal event (and not after an early error return). -/
def runStream (chunks : List Str) : List SSEEvent :=
  let s := processChunks chunks
  if s.lineSt.stopped then s.lineSt.events
  else if s.lineSt.isDone then s.lineSt.events
  else s.lineSt.events ++ [SSEEvent.done (Json.jobj [])]

/-- The `catch` attached to the `fetch` promise: every failure except an
`AbortError` is forwarded to `onError`. -/
def fetchCatchEvents (name message : Str) : List SSEEvent :=
  if name == ("AbortError".data) then [] else [SSEEvent.errorEv message]

/-! ## Session state: messages, the two-mode chat store -/

inductive MessageRole where
  | user
  | assistant
  | system
deriving DecidableEq

inductive AgentStepType where
  | thinking
  | decision
  | action
  | response
deriving DecidableEq

structure Citation where
  fileName : Str
  location : Str
  score : Rat
  content : Option Str
  kb_name : Option Str
  kb_id : Option Str
  chunk_id : Option Str
  fileId : Option Str
  image_path : Option Str
  rerank_score : Option Rat
deriving DecidableEq

structure AgentStep where
  type : AgentStepType
  content : Str
  timestamp : Str
  duration : Option Rat
  cost : Option Rat
deriving DecidableEq

structure ChatMessage where
  id : Str
  role : MessageRole
  content : Str
  citations : Option (List Citation)
  original_citations : Option (List Citation)
  agentSteps : Option (List AgentStep)
  timestamp : Str
  isStreaming : Option Bool
  error : Option Str
deriving DecidableEq

/-- The two conversation modes of the chat page. -/
inductive Mode where
  | agent
  | normal
deriving DecidableEq

def Mode.other : Mode → Mode
  | .agent => .normal
  | .normal => .agent

/-- The mode-separated slice of the zustand chat store. -/
structure ChatStore where
  agentMessages : List ChatMessage
  normalMessages : List ChatMessage
  isAgentGenerating : Bool
  isNormalGenerating : Bool
  agentAbortController : Option Unit
  normalAbortController : Option Unit
deriving DecidableEq

def msgsOf (m : Mode) (s : ChatStore) : List ChatMessage :=
  match m with
  | .agent => s.agentMessages
  | .normal => s.normalMessages

def genOf (m : Mode) (s : ChatStore) : Bool :=
  match m with
  | .agent => s.isAgentGenerating
  | .normal => s.isNormalGenerating

def abortOf (m : Mode) (s : ChatStore) : Option Unit :=
  match m with
  | .agent => s.agentAbortController
  | .normal => s.normalAbortController

def setMsgsOf (m : Mode) (l : List ChatMessage) (s : ChatStore) : ChatStore :=
  match m with
  | .agent => { s with agentMessages := l }
  | .normal => { s with normalMessages := l }

def setGenOf (m : Mode) (b : Bool) (s : ChatStore) : ChatStore :=
  match m with
  | .agent => { s with isAgentGenerating := b }
  | .normal => { s with isNormalGenerating := b }

def setAbortOf (m : Mode) (c : Option Unit) (s : ChatStore) : ChatStore :=
  match m with
  | .agent => { s with agentAbortController := c }
  | .normal => { s with normalAbortController := c }

/-! ## The stream event handlers registered by `handleSend` -/

/-- Payload of an `onAgentThought` invocation. -/
structure AgentThoughtData where
  step : AgentStepType
  content : Str
  duration : Option Rat
  cost : Option Rat
deriving DecidableEq

/-- Payload of an `onRagResult` invocation. -/
structure RagResultData where
  citations : List Citation
  original_citations : Option (List Citation)
deriving DecidableEq

/-- The `AgentStep` record built inside `onAgentThought`. -/
def mkStep (data : AgentThoughtData) (now : Str) : AgentStep :=
  { type := data.step
    content := data.content
    timestamp := now
    duration := data.duration
    cost := data.cost }

/-- `{ ...msgs[i] } := f msgs[i]` at one index, as the handlers do after
`findIndex`. -/
def listModify {α : Type} (f : α → α) : Nat → List α → List α
  | _, [] => []
  | 0, x :: xs => f x :: xs
  | n + 1, x :: xs => x :: listModify f n xs

/-- `error.message || '未知错误'` formatted into the failure string the
`onError` handler writes into the message content. -/
def errorText (emsg : Str) : Str :=
  ("发生错误，请重试: ".data) ++ (if emsg = [] then ("未知错误".data) else emsg)

/-- One store-visible action of a stream's handlers: a reasoning-step
append, a retrieval-result attach, a throttled content commit, the done
finalization (with the full accumulated content), or the error
finalization. -/
inductive SessionEvent where
  | thought (data : AgentThoughtData) (now : Str)
  | rag (data : RagResultData)
  | commit (content : Str)
  | doneEv (acc : Str)
  | errorEv (emsg : Str)

/-- The message-list transformation a handler performs on the captured
mode's history (the functional updater passed to the store setter). -/
def msgsEffect (aid : Str) (ev : SessionEvent) (msgs : List ChatMessage) :
    List ChatMessage :=
  match ev with
  | .thought data now =>
    match msgs.findIdx? (fun m => m.id == aid) with
    | some i =>
      listModify
        (fun msg =>
          { msg with
            agentSteps := some (msg.agentSteps.getD [] ++ [mkStep data now]) })
        i msgs
    | none => msgs
  | .rag data =>
    match msgs.findIdx? (fun m => m.id == aid) with
    | some i =>
      listModify
        (fun msg =>
          { msg with
            citations := some data.citations
            original_citations := data.original_citations })
        i msgs
    | none => msgs
  | .commit content =>
    msgs.map (fun msg =>
      if msg.id == aid then { msg with content := content } else msg)
  | .doneEv acc =>
    (msgs.map (fun msg =>
        if msg.id == aid then { msg with content := acc } else msg)).map
      (fun msg =>
        if msg.id == aid then
          { msg with content := acc, isStreaming := some false }
        else msg)
  | .errorEv emsg =>
    msgs.map (fun msg =>
      if msg.id == aid then
        { msg with
          content := errorText emsg
          error := some emsg
          isStreaming := some false }
      else msg)

/-- A handler invocation applied to the store.  Every handler addresses
the mode captured at submission time (`capturedChatMode`), never the
live UI mode; `done` and `error` additionally clear the captured mode's
generation flag and abort handle. -/
def applyStreamEvent (captured : Mode) (aid : Str) (ev : SessionEvent)
    (s : ChatStore) : ChatStore :=
  let s1 := setMsgsOf captured (msgsEffect aid ev (msgsOf captured s)) s
  match ev with
  | .doneEv _ => setAbortOf captured none (setGenOf captured false s1)
  | .errorEv _ => setAbortOf captured none (setGenOf captured false s1)
  | _ => s1

/-- A sequence of handler invocations, possibly from streams captured in
different modes, applied in order. -/
def applyEvents (evs : List (Mode × Str × SessionEvent)) (s : ChatStore) :
    ChatStore :=
  evs.foldl (fun st e => applyStreamEvent e.1 e.2.1 e.2.2 st) s

/-! ## The render throttle of `onAnswerChunk` -/

/-- Local state of one generation: the store, the accumulation buffer
`accumulatedContent`, and whether an animation-frame commit is pending
(`animationFrameId` nonzero). -/
structure GenState where
  store : ChatStore
  acc : Str
  pending : Bool

/-- Answer-delta arrival or an animation-frame callback firing. -/
inductive ThrottleEvent where
  | delta (c : Str)
  | frameFire

/-- `onAnswerChunk` (append to the buffer, schedule a commit if none is
pending) and the scheduled `requestAnimationFrame` callback (commit the
current buffer, clear the pending flag). -/
def throttleStep (captured : Mode) (aid : Str) (st : GenState) :
    ThrottleEvent → GenState
  | .delta c => { st with acc := st.acc ++ c, pending := true }
  | .frameFire =>
    if st.pending then
      { store := applyStreamEvent captured aid (.commit st.acc) st.store
        acc := st.acc
        pending := false }
    else st

def runDeltas (captured : Mode) (aid : Str) (evs : List ThrottleEvent)
    (s0 : ChatStore) : GenState :=
  evs.foldl (throttleStep captured aid) { store := s0, acc := [], pending := false }

/-- `onDone`: cancel any pending frame, commit the full buffer, then mark
the message final and clear the generation state. -/
def finishDone (captured : Mode) (aid : Str) (st : GenState) : ChatStore :=
  applyStreamEvent captured aid (.doneEv st.acc) st.store

/-- Concatenation of the delta payloads, in arrival order. -/
def deltaConcat : List ThrottleEvent → Str
  | [] => []
  | .delta c :: evs => c ++ deltaConcat evs
  | .frameFire :: evs => deltaConcat evs

/-! ## `handleSend`, `handleStop`, `handleRetry` -/

structure ChatConfig where
  kbIds : List Str
  topK : Nat
  scoreThreshold : Rat
  rerankEnabled : Bool
  rerankScoreThreshold : Rat
  rerankModelId : Option Str
deriving DecidableEq

/-- Component-local UI state of the chat page. -/
structure UIState where
  inputValue : Str
  chatMode : Mode
  agentConfig : ChatConfig
  normalConfig : ChatConfig
  selectedModel : Str
deriving DecidableEq

def configOf (m : Mode) (ui : UIState) : ChatConfig :=
  match m with
  | .agent => ui.agentConfig
  | .normal => ui.normalConfig

/-- The request body POSTed to `/api/v1/chat/completions`. -/
structure ChatRequest where
  messages : List (MessageRole × Str)
  kb_ids : List Str
  mode : Mode
  top_k : Nat
  score_threshold : Rat
  model_id : Str
  rerank_enabled : Bool
  rerank_score_threshold : Rat
  rerank_model_id : Option Str
deriving DecidableEq

/-- `handleSend`: gated on a blank input or `isGenerating`; on acceptance
appends the user and placeholder assistant messages to the current
mode's history, clears the input, sets the generation flag, opens the
stream (the returned request), and stores the abort handle.  `uid`,
`aid` and `ts` stand in for the generated message ids and timestamps. -/
def handleSend (ui : UIState) (s : ChatStore) (uid aid ts : Str) :
    UIState × ChatStore × Option ChatRequest :=
  if jsTrim ui.inputValue == [] || genOf ui.chatMode s then (ui, s, none)
  else
    let userMessage : ChatMessage :=
      { id := uid, role := .user, content := jsTrim ui.inputValue
        citations := none, original_citations := none, agentSteps := none
        timestamp := ts, isStreaming := none, error := none }
    let assistantMessage : ChatMessage :=
      { id := aid, role := .assistant, content := []
        citations := some [], original_citations := none
        agentSteps := some [], timestamp := ts
        isStreaming := some true, error := none }
    let cfg := configOf ui.chatMode ui
    let req : ChatRequest :=
      { messages :=
          (msgsOf ui.chatMode s ++ [userMessage]).map (fun m => (m.role, m.content))
        kb_ids := cfg.kbIds
        mode := ui.chatMode
        top_k := cfg.topK
        score_threshold := cfg.scoreThreshold
        model_id := ui.selectedModel
        rerank_enabled := cfg.rerankEnabled
        rerank_score_threshold := cfg.rerankScoreThreshold
        rerank_model_id := cfg.rerankModelId }
    let s1 := setMsgsOf ui.chatMode
        (msgsOf ui.chatMode s ++ [userMessage, assistantMessage]) s
    let s2 := setGenOf ui.chatMode true s1
    let s3 := setAbortOf ui.chatMode (some ()) s2
    ({ ui with inputValue := [] }, s3, some req)

/-- `handleStop`: invoke the stored abort handle if present (the returned
Bool records the invocation), then immediately clear the current mode's
generation flag and abort handle. -/
def handleStop (chatMode : Mode) (s : ChatStore) : ChatStore × Bool :=
  let invoked := (abortOf chatMode s).isSome
  (setAbortOf chatMode none (setGenOf chatMode false s), invoked)

/-- `handleRetry`: a no-op when the current mode's history has fewer than
two messages (or no user message); otherwise stage the most recent user
message's content as the input value and truncate the history by its
final two messages (`messages.slice(0, -2)`). -/
def handleRetry (ui : UIState) (s : ChatStore) : UIState × ChatStore :=
  let messages := msgsOf ui.chatMode s
  if messages.length < 2 then (ui, s)
  else
    match messages.reverse.find? (fun m => m.role == MessageRole.user) with
    | some lastUserMessage =>
      ({ ui with inputValue := lastUserMessage.content },
        setMsgsOf ui.chatMode (messages.take (messages.length - 2)) s)
    | none => (ui, s)

/-! ## Lemmas about `splitLines` and the read loop -/

lemma splitLines_ne_nil (s : Str) : splitLines s ≠ [] := by
  cases s with
  | nil => simp [splitLines]
  | cons c rest =>
    simp only [splitLines]
    split
    · simp
    · split <;> simp

lemma getLastD_congr {α : Type} (l : List α) (d d' : α) (h : l ≠ []) :
    l.getLastD d = l.getLastD d' := by
  cases l with
  | nil => exact absurd rfl h
  | cons x xs => rw [List.getLastD_cons, List.getLastD_cons]

lemma getLastD_append_right {α : Type} (l1 l2 : List α) (d : α) (h : l2 ≠ []) :
    (l1 ++ l2).getLastD d = l2.getLastD d := by
  induction l1 generalizing d with
  | nil => rfl
  | cons a l1 ih =>
    rw [List.cons_append, List.getLastD_cons, ih a]
    exact getLastD_congr l2 a d h

lemma getLastD_mem {α : Type} (l : List α) (d : α) (h : l ≠ []) :
    l.getLastD d ∈ l := by
  induction l generalizing d with
  | nil => exact absurd rfl h
  | cons x xs ih =>
    rw [List.getLastD_cons]
    cases xs with
    | nil => simp [List.getLastD]
    | cons y ys => exact List.mem_cons_of_mem x (ih x (by simp))

lemma mem_splitLines_no_nl (s : Str) : ∀ l ∈ splitLines s, '\n' ∉ l := by
  induction s with
  | nil =>
    intro l hl
    simp [splitLines] at hl
    simp [hl]
  | cons c rest ih =>
    intro l hl
    simp only [splitLines] at hl
    by_cases hc : c = '\n'
    · rw [if_pos hc] at hl
      rcases List.mem_cons.mp hl with h | h
      · simp [h]
      · exact ih l h
    · rw [if_neg hc] at hl
      rcases hrest : splitLines rest with _ | ⟨m, ms⟩
      · exact absurd hrest (splitLines_ne_nil rest)
      · rw [hrest] at hl
        rcases List.mem_cons.mp hl with h | h
        · subst h
          intro hmem
          rcases List.mem_cons.mp hmem with h | h
          · exact hc h.symm
          · exact ih m (by rw [hrest]; exact List.mem_cons_self m ms) h
        · exact ih l (by rw [hrest]; exact List.mem_cons_of_mem m h)

lemma splitLines_getLastD_no_nl (s : Str) :
    '\n' ∉ (splitLines s).getLastD [] :=
  mem_splitLines_no_nl s _ (getLastD_mem _ _ (splitLines_ne_nil s))

lemma splitLines_no_nl (s : Str) (h : '\n' ∉ s) : splitLines s = [s] := by
  induction s with
  | nil => rfl
  | cons c rest ih =>
    simp only [splitLines]
    have hc : ¬ c = '\n' := fun hc => h (by simp [hc])
    rw [if_neg hc, ih (fun hm => h (List.mem_cons_of_mem c hm))]

lemma splitLines_append (a b : Str) :
    splitLines (a ++ b) =
      (splitLines a).dropLast ++
        (((splitLines a).getLastD [] ++ (splitLines b).headI)
          :: (splitLines b).tail) := by
  induction a with
  | nil =>
    rcases hb : splitLines b with _ | ⟨x, xs⟩
    · exact absurd hb (splitLines_ne_nil b)
    · simp [splitLines, List.getLastD, hb]
  | cons c a ih =>
    by_cases hc : c = '\n'
    · subst hc
      show splitLines ('\n' :: (a ++ b)) = _
      rw [show splitLines ('\n' :: (a ++ b)) = [] :: splitLines (a ++ b) from by
            simp [splitLines],
          show splitLines ('\n' :: a) = [] :: splitLines a from by
            simp [splitLines],
          ih]
      rcases ha : splitLines a with _ | ⟨m, ms⟩
      · exact absurd ha (splitLines_ne_nil a)
      · simp [List.getLastD_cons]
    · show splitLines (c :: (a ++ b)) = _
      rcases ha : splitLines a with _ | ⟨m, ms⟩
      · exact absurd ha (splitLines_ne_nil a)
      · rcases hab : splitLines (a ++ b) with _ | ⟨w, ws⟩
        · exact absurd hab (splitLines_ne_nil (a ++ b))
        · have h1 : splitLines (c :: (a ++ b)) = (c :: w) :: ws := by
            simp only [splitLines, if_neg hc, hab]
          have h2 : splitLines (c :: a) = (c :: m) :: ms := by
            simp only [splitLines, if_neg hc, ha]
          rw [h1, h2]
          rw [ha, hab] at ih
          cases ms with
          | nil =>
            simp only [List.dropLast_single, List.getLastD_cons, List.getLastD,
              List.nil_append] at ih ⊢
            rw [List.cons_eq_cons] at ih
            obtain ⟨ih1, ih2⟩ := ih
            subst ih1
            subst ih2
            simp
          | cons m2 ms2 =>
            have hdl : (m :: m2 :: ms2).dropLast = m :: (m2 :: ms2).dropLast :=
              rfl
            rw [hdl, List.cons_append, List.cons_eq_cons] at ih
            obtain ⟨ih1, ih2⟩ := ih
            subst ih1
            have hdl2 : ((c :: w) :: m2 :: ms2).dropLast
                = (c :: w) :: (m2 :: ms2).dropLast := rfl
            rw [ih2, hdl2]
            simp only [List.getLastD_cons]
            simp

lemma splitLines_append_last (x b : Str) :
    splitLines (x ++ b) =
      (splitLines x).dropLast ++ splitLines ((splitLines x).getLastD [] ++ b) := by
  rw [splitLines_append x b,
      splitLines_append ((splitLines x).getLastD []) b,
      splitLines_no_nl _ (splitLines_getLastD_no_nl x)]
  rfl

/-- Chunk composition: feeding two chunks in sequence is the same as
feeding their concatenation. -/
lemma processChunk_append (s : StreamState) (a b : Str) :
    processChunk (processChunk s a) b = processChunk s (a ++ b) := by
  simp only [processChunk]
  rw [← List.append_assoc, splitLines_append_last (s.buffer ++ a) b]
  have hne : splitLines ((splitLines (s.buffer ++ a)).getLastD [] ++ b) ≠ [] :=
    splitLines_ne_nil _
  rw [List.dropLast_append_of_ne_nil _ hne,
      getLastD_append_right _ _ _ hne,
      List.foldl_append]

lemma processChunk_nil (s : StreamState) (h : '\n' ∉ s.buffer) :
    processChunk s [] = s := by
  simp only [processChunk, List.append_nil, splitLines_no_nl s.buffer h]
  rfl

lemma processChunk_buffer_no_nl (s : StreamState) (c : Str) :
    '\n' ∉ (processChunk s c).buffer := by
  simp only [processChunk]
  exact splitLines_getLastD_no_nl (s.buffer ++ c)

/-- The read loop is a function of the concatenated character stream. -/
lemma foldl_processChunk_flatten (chunks : List Str) (s : StreamState)
    (h : '\n' ∉ s.buffer) :
    chunks.foldl processChunk s = processChunk s chunks.flatten := by
  induction chunks generalizing s with
  | nil => simp [processChunk_nil s h]
  | cons c cs ih =>
    rw [List.foldl_cons, ih (processChunk s c) (processChunk_buffer_no_nl s c),
        processChunk_append, List.flatten_cons]

/-! ## Lemmas about the store and the stream event handlers -/

lemma msgsOf_applyStreamEvent (captured : Mode) (aid : Str) (ev : SessionEvent)
    (s : ChatStore) (m : Mode) :
    msgsOf m (applyStreamEvent captured aid ev s) =
      if captured = m then msgsEffect aid ev (msgsOf m s) else msgsOf m s := by
  cases ev <;> cases captured <;> cases m <;>
    simp [applyStreamEvent, setMsgsOf, setGenOf, setAbortOf, msgsOf]

lemma genOf_applyStreamEvent_other (captured : Mode) (aid : Str)
    (ev : SessionEvent) (s : ChatStore) :
    genOf captured.other (applyStreamEvent captured aid ev s) =
      genOf captured.other s := by
  cases ev <;> cases captured <;>
    simp [applyStreamEvent, setMsgsOf, setGenOf, setAbortOf, genOf, Mode.other]

lemma abortOf_applyStreamEvent_other (captured : Mode) (aid : Str)
    (ev : SessionEvent) (s : ChatStore) :
    abortOf captured.other (applyStreamEvent captured aid ev s) =
      abortOf captured.other s := by
  cases ev <;> cases captured <;>
    simp [applyStreamEvent, setMsgsOf, setGenOf, setAbortOf, abortOf, Mode.other]

lemma foldl_congr_mem {α β : Type} (l : List β) (f g : α → β → α) (a : α)
    (h : ∀ acc b, b ∈ l → f acc b = g acc b) : l.foldl f a = l.foldl g a := by
  induction l generalizing a with
  | nil => rfl
  | cons x xs ih =>
    rw [List.foldl_cons, List.foldl_cons, h a x (List.mem_cons_self x xs)]
    exact ih _ (fun acc b hb => h acc b (List.mem_cons_of_mem x hb))

lemma foldl_filter_eq {α β : Type} (l : List β) (p : β → Bool)
    (f : α → β → α) (a : α) :
    (l.filter p).foldl f a =
      l.foldl (fun acc b => if p b then f acc b else acc) a := by
  induction l generalizing a with
  | nil => rfl
  | cons x xs ih =>
    by_cases hx : p x
    · rw [List.filter_cons_of_pos hx, List.foldl_cons, List.foldl_cons, if_pos hx]
      exact ih _
    · rw [List.filter_cons_of_neg (by simpa using hx), List.foldl_cons,
        if_neg hx]
      exact ih _

/-- The history of a mode after a mixed event sequence is the fold of the
per-event history effects of the events captured in that mode. -/
lemma msgsOf_applyEvents (evs : List (Mode × Str × SessionEvent)) (m : Mode)
    (s : ChatStore) :
    msgsOf m (applyEvents evs s) =
      evs.foldl
        (fun acc e => if e.1 = m then msgsEffect e.2.1 e.2.2 acc else acc)
        (msgsOf m s) := by
  induction evs generalizing s with
  | nil => rfl
  | cons e evs ih =>
    show msgsOf m (applyEvents evs (applyStreamEvent e.1 e.2.1 e.2.2 s)) = _
    rw [ih, msgsOf_applyStreamEvent, List.foldl_cons]

lemma map_if_id {α : Type} (l : List α) (p : α → Bool) (f : α → α)
    (h : ∀ x ∈ l, p x = false) :
    l.map (fun x => if p x then f x else x) = l := by
  induction l with
  | nil => rfl
  | cons x xs ih =>
    rw [List.map_cons, h x (List.mem_cons_self x xs)]
    simp only [Bool.false_eq_true, if_false]
    rw [ih (fun y hy => h y (List.mem_cons_of_mem x hy))]

/-- If no message carries the assistant id, no handler changes the
captured mode's history. -/
lemma msgsEffect_absent (aid : Str) (ev : SessionEvent)
    (msgs : List ChatMessage) (h : ∀ msg ∈ msgs, msg.id ≠ aid) :
    msgsEffect aid ev msgs = msgs := by
  have hfalse : ∀ msg ∈ msgs, (msg.id == aid) = false := fun msg hm =>
    beq_eq_false_iff_ne.mpr (h msg hm)
  have hidx : msgs.findIdx? (fun m => m.id == aid) = none :=
    List.findIdx?_eq_none_iff.mpr hfalse
  cases ev with
  | thought data now => simp [msgsEffect, hidx]
  | rag data => simp [msgsEffect, hidx]
  | commit content => exact map_if_id msgs _ _ hfalse
  | doneEv acc =>
    simp only [msgsEffect]
    rw [map_if_id msgs _ _ hfalse, map_if_id msgs _ _ hfalse]
  | errorEv emsg => exact map_if_id msgs _ _ hfalse

lemma applyStreamEvent_gen_done (m : Mode) (aid acc : Str) (s : ChatStore) :
    genOf m (applyStreamEvent m aid (.doneEv acc) s) = false := by
  cases m <;> simp [applyStreamEvent, setMsgsOf, setGenOf, setAbortOf, genOf]

/-- `countP` of terminal `done` dispatches among the handler calls. -/
def isDoneEvent : SSEEvent → Bool
  | .done _ => true
  | _ => false

def countDone (evs : List SSEEvent) : Nat := evs.countP isDoneEvent

lemma processParsed_not_done (tag : Option Str) (d : Json)
    (oe : Option SSEEvent) (h : processParsed tag d = .ok (oe, false)) :
    countDone oe.toList = 0 := by
  unfold processParsed at h
  split at h
  · simp at h
  · split at h
    · simp at h
    · simp only [Except.ok.injEq, Prod.mk.injEq] at h
      rw [← h.1]
      rfl
    · split at h
      · simp at h
      · simp only [Except.ok.injEq, Prod.mk.injEq] at h
        rw [← h.1]
        rfl
      · split at h
        · simp at h
        · simp only [Except.ok.injEq, Prod.mk.injEq] at h
          rw [← h.1]
          rfl
        · split at h
          · simp at h
          · simp only [Except.ok.injEq, Prod.mk.injEq] at h
            exact absurd h.2 (by simp)
          · simp only [Except.ok.injEq, Prod.mk.injEq] at h
            rw [← h.1]
            rfl

lemma tryFrame_not_done (tag : Option Str) (dataStr : Str)
    (oe : Option SSEEvent) (h : tryFrame tag dataStr = .ok (oe, false)) :
    countDone oe.toList = 0 := by
  unfold tryFrame at h
  split at h
  · simp at h
  · exact processParsed_not_done _ _ _ h

/-- `processLine` preserves: no `done` handler call has been made while
`isDone` is still false. -/
lemma processLine_done_inv (s : LineState) (line : Str)
    (h : s.isDone = false → countDone s.events = 0) :
    (processLine s line).isDone = false →
      countDone (processLine s line).events = 0 := by
  unfold processLine
  split
  · exact h
  · split
    · exact h
    · split
      · dsimp only
        split
        · exact h
        · split
          next oe setDone heq =>
            intro h2
            simp only at h2 ⊢
            rcases Bool.or_eq_false_iff.mp h2 with ⟨hd, hsd⟩
            subst hsd
            simp only [countDone, List.countP_append]
            have h0 : countDone s.events = 0 := h hd
            have h1 : countDone oe.toList = 0 := tryFrame_not_done _ _ _ heq
            simp only [countDone] at h0 h1
            rw [h0, h1]
          next msg =>
            split
            · intro h2
              simp only at h2 ⊢
              have h0 := h h2
              simp only [countDone, List.countP_append] at h0 ⊢
              rw [h0]
              rfl
            · exact h
      · exact h

lemma foldl_processLine_done_inv (lines : List Str) (s : LineState)
    (h : s.isDone = false → countDone s.events = 0) :
    (lines.foldl processLine s).isDone = false →
      countDone (lines.foldl processLine s).events = 0 := by
  induction lines generalizing s with
  | nil => exact h
  | cons l ls ih =>
    rw [List.foldl_cons]
    exact ih (processLine s l) (processLine_done_inv s l h)

lemma processChunks_done_inv (chunks : List Str)
    (h2 : (processChunks chunks).lineSt.isDone = false) :
    countDone (processChunks chunks).lineSt.events = 0 := by
  have key : ∀ (cs : List Str) (s : StreamState),
      (s.lineSt.isDone = false → countDone s.lineSt.events = 0) →
      ((cs.foldl processChunk s).lineSt.isDone = false →
        countDone (cs.foldl processChunk s).lineSt.events = 0) := by
    intro cs
    induction cs with
    | nil => intro s h hh; exact h hh
    | cons c cs ih =>
      intro s h hh
      rw [List.foldl_cons] at hh ⊢
      exact ih (processChunk s c)
        (foldl_processLine_done_inv _ _ h) hh
  exact key chunks initStreamState (fun _ => rfl) h2

lemma throttle_foldl_acc (captured : Mode) (aid : Str)
    (evs : List ThrottleEvent) :
    ∀ st : GenState,
      (evs.foldl (throttleStep captured aid) st).acc = st.acc ++ deltaConcat evs := by
  induction evs with
  | nil => intro st; simp [deltaConcat]
  | cons e evs ih =>
    intro st
    rw [List.foldl_cons, ih]
    cases e with
    | delta c => simp [throttleStep, deltaConcat]
    | frameFire =>
      have hacc : (throttleStep captured aid st .frameFire).acc = st.acc := by
        by_cases hp : st.pending = true <;> simp [throttleStep, hp]
      rw [hacc]
      rfl

lemma runDeltas_acc (captured : Mode) (aid : Str) (evs : List ThrottleEvent)
    (s0 : ChatStore) : (runDeltas captured aid evs s0).acc = deltaConcat evs := by
  unfold runDeltas
  rw [throttle_foldl_acc]
  rfl

/-! ## The claims -/

/-- C1: for every sequence of answer-delta arrivals interleaved with any
number of animation-frame commits (fired or coalesced), after the `done`
handler has run, every message in the captured mode's history bearing
the submission's assistant id has content equal to the concatenation of
all delta payloads in arrival order and its streaming flag cleared. -/
theorem c1_stream_completion (m : Mode) (aid : Str) (evs : List ThrottleEvent)
    (s0 : ChatStore) (msg : ChatMessage)
    (hmem : msg ∈ msgsOf m (finishDone m aid (runDeltas m aid evs s0)))
    (hid : msg.id = aid) :
    msg.content = deltaConcat evs ∧ msg.isStreaming = some false := by
  unfold finishDone at hmem
  rw [msgsOf_applyStreamEvent, if_pos rfl] at hmem
  simp only [msgsEffect] at hmem
  rcases List.mem_map.mp hmem with ⟨x, hx, hmsg⟩
  by_cases hbeq : (x.id == aid) = true
  · rw [if_pos hbeq] at hmsg
    subst hmsg
    exact ⟨runDeltas_acc m aid evs s0, rfl⟩
  · rw [if_neg hbeq] at hmsg
    subst hmsg
    exact absurd (beq_iff_eq.mpr hid) hbeq

def c1w_msg0 : ChatMessage :=
  { id := ("a1".data), role := .assistant, content := []
    citations := some [], original_citations := none, agentSteps := some []
    timestamp := ("t".data), isStreaming := some true, error := none }

def c1w_store : ChatStore :=
  { agentMessages := [c1w_msg0], normalMessages := []
    isAgentGenerating := true, isNormalGenerating := false
    agentAbortController := some (), normalAbortController := none }

def c1w_evs : List ThrottleEvent :=
  [.delta ("ab".data), .frameFire, .delta ("c".data)]

def c1w_final : ChatMessage :=
  { c1w_msg0 with content := ("abc".data), isStreaming := some false }

theorem c1_witness :
    c1w_final ∈
        msgsOf .agent
          (finishDone .agent ("a1".data)
            (runDeltas .agent ("a1".data) c1w_evs c1w_store))
      ∧ c1w_final.id = ("a1".data)
      ∧ (c1w_final.content = deltaConcat c1w_evs
          ∧ c1w_final.isStreaming = some false) :=
  ⟨by decide, by decide,
    c1_stream_completion .agent ("a1".data) c1w_evs c1w_store c1w_final
      (by decide) (by decide)⟩

/-- C2: two chunkings of the same character stream produce the identical
sequence of handler invocations with identical payloads — frames depend
only on the reassembled line stream, never on a partial carry-over
fragment. -/
theorem c2_chunk_invariance (cs1 cs2 : List Str)
    (h : cs1.flatten = cs2.flatten) : runStream cs1 = runStream cs2 := by
  unfold runStream processChunks
  rw [foldl_processChunk_flatten cs1 initStreamState (by simp [initStreamState]),
      foldl_processChunk_flatten cs2 initStreamState (by simp [initStreamState]),
      h]

def c2w_chunksA : List Str := [("data: \x7b\"content\": \"hi\"\x7d\n".data)]

def c2w_chunksB : List Str :=
  [("data: \x7b\"con".data), ("tent\"".data), (": \"hi\"\x7d\n".data)]

theorem c2_witness :
    c2w_chunksA.flatten = c2w_chunksB.flatten
      ∧ runStream c2w_chunksA = runStream c2w_chunksB :=
  ⟨by rfl, c2_chunk_invariance c2w_chunksA c2w_chunksB (by rfl)⟩

/-- C5: when the transport ends with processing neither stopped by an
error nor terminated by a `done` frame, the dispatcher synthesizes
exactly one `onDone` call with an empty payload (no other `done` call was
made), and the session's `onDone` handler clears the captured mode's
generation-in-progress flag. -/
theorem c5_synthesized_done (chunks : List Str)
    (h1 : (processChunks chunks).lineSt.stopped = false)
    (h2 : (processChunks chunks).lineSt.isDone = false) :
    runStream chunks =
        (processChunks chunks).lineSt.events ++ [SSEEvent.done (Json.jobj [])]
      ∧ countDone (processChunks chunks).lineSt.events = 0
      ∧ countDone (runStream chunks) = 1
      ∧ (∀ (m : Mode) (aid acc : Str) (s : ChatStore),
          genOf m (applyStreamEvent m aid (SessionEvent.doneEv acc) s) = false) := by
  have e1 : runStream chunks =
      (processChunks chunks).lineSt.events ++ [SSEEvent.done (Json.jobj [])] := by
    simp only [runStream, h1, h2, Bool.false_eq_true, if_false]
  have e2 := processChunks_done_inv chunks h2
  refine ⟨e1, e2, ?_, fun m aid acc s => applyStreamEvent_gen_done m aid acc s⟩
  rw [e1]
  simp only [countDone, List.countP_append] at e2 ⊢
  rw [e2]
  rfl

def c5w_chunks : List Str := [("data: \x7b\"content\": \"hi\"\x7d".data), ("\n".data)]

theorem c5_witness :
    (processChunks c5w_chunks).lineSt.stopped = false
      ∧ (processChunks c5w_chunks).lineSt.isDone = false
      ∧ runStream c5w_chunks =
          (processChunks c5w_chunks).lineSt.events
            ++ [SSEEvent.done (Json.jobj [])]
      ∧ countDone (runStream c5w_chunks) = 1 :=
  ⟨by rfl, by rfl,
    (c5_synthesized_done c5w_chunks (by rfl) (by rfl)).1,
    (c5_synthesized_done c5w_chunks (by rfl) (by rfl)).2.2.1⟩

def hasField (fs : List (Str × Json)) (k : Str) : Bool :=
  fs.any (fun p => p.1 == k)

def c3x_payload : Json :=
  .jobj [(("step".data), .jstr ("thinking".data)),
         (("content".data), .jstr ("hi".data))]

/-- C3 counterexample: a frame explicitly tagged `answer` whose payload
also contains a `step` field is dispatched to `onAgentThought`, and no
`onAnswerChunk` invocation is made — the tag is not authoritative over
the payload shape. -/
theorem c3_counterexample :
    runStream
        [("event: answer\ndata: \x7b\"step\": \"thinking\", \"content\": \"hi\"\x7d\n".data)] =
        [SSEEvent.agentThought c3x_payload, SSEEvent.done (Json.jobj [])]
      ∧ ¬ (SSEEvent.answerChunk c3x_payload ∈
          runStream
            [("event: answer\ndata: \x7b\"step\": \"thinking\", \"content\": \"hi\"\x7d\n".data)]) := by
  refine ⟨rfl, ?_⟩
  intro h
  rw [show runStream
      [("event: answer\ndata: \x7b\"step\": \"thinking\", \"content\": \"hi\"\x7d\n".data)] =
      [SSEEvent.agentThought c3x_payload, SSEEvent.done (Json.jobj [])] from rfl] at h
  rcases List.mem_cons.mp h with h1 | h2
  · exact SSEEvent.noConfusion h1
  · rcases List.mem_cons.mp h2 with h3 | h4
    · exact SSEEvent.noConfusion h3
    · simp at h4

/-- The `answer`-tagged branch of the classification chain, reduced to
its two preceding shape tests. -/
lemma processParsed_answer_eq (d : Json) :
    processParsed (some ("answer".data)) d =
      match d.inOp ("step".data) with
      | .error e => .error e
      | .ok true => .ok (some (.agentThought d), false)
      | .ok false =>
        match d.inOp ("citations".data) with
        | .error e => .error e
        | .ok true => .ok (some (.ragResult d), false)
        | .ok false => .ok (some (.answerChunk d), false) := rfl

/-- C3 (amended): the classifier checks the branches in the fixed order
thought, rag, answer, done, and each branch fires when its explicit tag
matches *or* its payload-shape predicate holds; only the `error` tag is
checked before any shape inspection.  Hence a recognized tag is honored
only when no earlier branch's shape predicate matches: a `thought` tag
always dispatches a reasoning step, an `answer` tag with a `step` field
dispatches a reasoning step, and an `answer` tag without `step` or
`citations` fields dispatches an answer delta. -/
theorem c3_tag_shape_order (d : Json) (fs : List (Str × Json)) :
    processParsed (some ("thought".data)) d =
        .ok (some (.agentThought d), false)
      ∧ (hasField fs ("step".data) = true →
          processParsed (some ("answer".data)) (Json.jobj fs) =
            .ok (some (.agentThought (Json.jobj fs)), false))
      ∧ (hasField fs ("step".data) = false →
          hasField fs ("citations".data) = false →
          processParsed (some ("answer".data)) (Json.jobj fs) =
            .ok (some (.answerChunk (Json.jobj fs)), false)) := by
  refine ⟨rfl, ?_, ?_⟩
  · intro h
    unfold hasField at h
    rw [processParsed_answer_eq]
    have hstep : (Json.jobj fs).inOp ("step".data) = Except.ok true := by
      simp only [Json.inOp]
      rw [h]
    rw [hstep]
  · intro h1 h2
    unfold hasField at h1 h2
    rw [processParsed_answer_eq]
    have hstep : (Json.jobj fs).inOp ("step".data) = Except.ok false := by
      simp only [Json.inOp]
      rw [h1]
    have hcit : (Json.jobj fs).inOp ("citations".data) = Except.ok false := by
      simp only [Json.inOp]
      rw [h2]
    rw [hstep, hcit]

def c3w_fields : List (Str × Json) :=
  [(("step".data), Json.jstr ("thinking".data))]

theorem c3_witness :
    hasField c3w_fields ("step".data) = true
      ∧ processParsed (some ("answer".data)) (Json.jobj c3w_fields) =
          .ok (some (.agentThought (Json.jobj c3w_fields)), false) :=
  ⟨by rfl, (c3_tag_shape_order Json.null c3w_fields).2.1 (by rfl)⟩

/-- C4 counterexample: a data line whose payload is not valid JSON (here
`@`) invokes the error handler and terminates processing — the following
well-formed answer line is never dispatched and no terminal `done` is
synthesized. -/
theorem c4_counterexample :
    runStream [("data: @\ndata: \x7b\"content\": \"hi\"\x7d\n".data)] =
        [SSEEvent.errorEv (JsonErr.message (.unexpectedToken '@'))]
      ∧ ¬ (SSEEvent.answerChunk (.jobj [(("content".data), .jstr ("hi".data))]) ∈
          runStream [("data: @\ndata: \x7b\"content\": \"hi\"\x7d\n".data)]) := by
  refine ⟨rfl, ?_⟩
  intro h
  rw [show runStream [("data: @\ndata: \x7b\"content\": \"hi\"\x7d\n".data)] =
      [SSEEvent.errorEv (JsonErr.message (.unexpectedToken '@'))] from rfl] at h
  rcases List.mem_cons.mp h with h1 | h2
  · exact SSEEvent.noConfusion h1
  · simp at h2

lemma ut_message_length (c : Char) :
    (JsonErr.message (.unexpectedToken c)).length = 26 := by
  simp only [JsonErr.message, List.length_append]
  rfl

lemma ut_message_ne_nil (c : Char) :
    JsonErr.message (.unexpectedToken c) ≠ [] := by
  intro h
  have hl := ut_message_length c
  rw [h] at hl
  simp at hl

lemma ut_message_ne_eoi (c : Char) :
    JsonErr.message (.unexpectedToken c) ≠ eoiMsg := by
  intro h
  have hl := ut_message_length c
  rw [h] at hl
  simp [eoiMsg] at hl

/-- C4 (amended): only a data line whose payload fails `JSON.parse` with
`Unexpected end of JSON input` (and with no `error` tag pending) is
dropped with the stream continuing — the line leaves the decoder state
completely unchanged; a payload failing with any other parse error
invokes the error handler with that failure and terminates processing of
the stream. -/
theorem c4_parse_failure_policy (s : LineState) (line : Str)
    (hs : s.stopped = false)
    (hev : (("event:".data).isPrefixOf line) = false)
    (hda : (("data:".data).isPrefixOf line) = true)
    (hne : jsTrim (line.drop 5) ≠ []) :
    (jsonParse (jsTrim (line.drop 5)) = .error .endOfInput →
      s.currentEventType ≠ some ("error".data) →
      processLine s line = s)
  ∧ (∀ c : Char,
      jsonParse (jsTrim (line.drop 5)) = .error (.unexpectedToken c) →
      processLine s line =
        { s with
          stopped := true
          events := s.events ++ [.errorEv (JsonErr.message (.unexpectedToken c))] }) := by
  constructor
  · intro hp htag
    unfold processLine
    rw [if_neg (by rw [hs]; exact Bool.false_ne_true),
        if_neg (by rw [hev]; exact Bool.false_ne_true),
        if_pos hda]
    dsimp only
    rw [if_neg hne]
    have htf : tryFrame s.currentEventType (jsTrim (line.drop 5)) =
        .error eoiMsg := by
      unfold tryFrame
      rw [hp]
      rfl
    rw [htf]
    dsimp only
    split
    · next hAB =>
      simp only [Bool.or_eq_true] at hAB
      rcases hAB with hA | hB
      · exact absurd (beq_iff_eq.mp hA) htag
      · exact absurd hB (by decide)
    · rfl
  · intro c hp
    unfold processLine
    rw [if_neg (by rw [hs]; exact Bool.false_ne_true),
        if_neg (by rw [hev]; exact Bool.false_ne_true),
        if_pos hda]
    dsimp only
    rw [if_neg hne]
    have htf : tryFrame s.currentEventType (jsTrim (line.drop 5)) =
        .error (JsonErr.message (.unexpectedToken c)) := by
      unfold tryFrame
      rw [hp]
    rw [htf]
    dsimp only
    split
    · rfl
    · next hAB =>
      exfalso
      apply hAB
      simp only [Bool.or_eq_true]
      right
      rw [beq_eq_false_iff_ne.mpr (ut_message_ne_nil c),
          beq_eq_false_iff_ne.mpr (ut_message_ne_eoi c)]
      rfl

def c4w_lineA : Str := ("data: \x7b".data)

def c4w_lineB : Str := ("data: @".data)

theorem c4_witness :
    initLineState.stopped = false
      ∧ (("data:".data).isPrefixOf c4w_lineA) = true
      ∧ jsonParse (jsTrim (c4w_lineA.drop 5)) = .error .endOfInput
      ∧ processLine initLineState c4w_lineA = initLineState
      ∧ jsonParse (jsTrim (c4w_lineB.drop 5)) = .error (.unexpectedToken '@')
      ∧ processLine initLineState c4w_lineB =
          { initLineState with
            stopped := true
            events := [.errorEv (JsonErr.message (.unexpectedToken '@'))] } :=
  ⟨by rfl, by rfl, by rfl,
    (c4_parse_failure_policy initLineState c4w_lineA (by rfl) (by rfl) (by rfl)
      (by decide)).1 (by rfl) (by decide),
    by rfl,
    (c4_parse_failure_policy initLineState c4w_lineB (by rfl) (by rfl) (by rfl)
      (by decide)).2 '@' (by rfl)⟩

/-- C6: while a mode's generation-in-progress flag is set, `handleSend`
is a no-op for that mode: the UI state and the store (in particular the
mode's history and flag) are unchanged and no stream is opened. -/
theorem c6_submit_gate (ui : UIState) (s : ChatStore) (uid aid ts : Str)
    (h : genOf ui.chatMode s = true) :
    handleSend ui s uid aid ts = (ui, s, none) := by
  unfold handleSend
  have hc : (jsTrim ui.inputValue == [] || genOf ui.chatMode s) = true := by
    rw [h]
    exact Bool.or_true _
  rw [if_pos hc]

def c6w_config : ChatConfig :=
  { kbIds := [], topK := 3, scoreThreshold := 0, rerankEnabled := true
    rerankScoreThreshold := 0, rerankModelId := none }

def c6w_ui : UIState :=
  { inputValue := ("hello".data), chatMode := .agent
    agentConfig := c6w_config, normalConfig := c6w_config
    selectedModel := ("m1".data) }

def c6w_store : ChatStore :=
  { agentMessages := [], normalMessages := []
    isAgentGenerating := true, isNormalGenerating := false
    agentAbortController := some (), normalAbortController := none }

theorem c6_witness :
    genOf c6w_ui.chatMode c6w_store = true
      ∧ handleSend c6w_ui c6w_store ("u1".data) ("a1".data) ("t".data) =
          (c6w_ui, c6w_store, none) :=
  ⟨by rfl,
    c6_submit_gate c6w_ui c6w_store ("u1".data) ("a1".data) ("t".data) (by rfl)⟩

/-- C7: every stream handler mutates only the mode captured at
submission time — the other mode's history, generation flag and abort
handle are untouched by each handler invocation — and for any interleaved
sequence of handler invocations from streams of both modes, a mode's
history equals what its own captured events alone produce. -/
theorem c7_mode_isolation :
    (∀ (captured : Mode) (aid : Str) (ev : SessionEvent) (s : ChatStore),
      msgsOf captured.other (applyStreamEvent captured aid ev s) =
          msgsOf captured.other s
        ∧ genOf captured.other (applyStreamEvent captured aid ev s) =
          genOf captured.other s
        ∧ abortOf captured.other (applyStreamEvent captured aid ev s) =
          abortOf captured.other s)
  ∧ (∀ (evs : List (Mode × Str × SessionEvent)) (m : Mode) (s : ChatStore),
      msgsOf m (applyEvents evs s) =
        msgsOf m (applyEvents (evs.filter (fun e => e.1 == m)) s)) := by
  constructor
  · intro captured aid ev s
    refine ⟨?_, genOf_applyStreamEvent_other captured aid ev s,
      abortOf_applyStreamEvent_other captured aid ev s⟩
    rw [msgsOf_applyStreamEvent,
      if_neg (by cases captured <;> simp [Mode.other])]
  · intro evs m s
    rw [msgsOf_applyEvents, msgsOf_applyEvents, foldl_filter_eq]
    apply foldl_congr_mem
    intro acc e _
    by_cases he : e.1 = m
    · rw [if_pos he,
        if_pos (show (e.1 == m) = true from beq_iff_eq.mpr he)]
    · rw [if_neg he,
        if_neg (show ¬((e.1 == m) = true) from by
          rw [beq_eq_false_iff_ne.mpr he]
          exact Bool.false_ne_true)]

/-- C8: `handleStop` leaves both histories unchanged, clears the current
mode's generation flag and abort handle immediately, reports whether a
stored handle was invoked, does not touch the other mode, and the
transport's resulting `AbortError` is suppressed by the stream client's
catch (no error handler invocation). -/
theorem c8_stop_behavior (m : Mode) (s : ChatStore) (h : genOf m s = true) :
    (handleStop m s).1.agentMessages = s.agentMessages
  ∧ (handleStop m s).1.normalMessages = s.normalMessages
  ∧ genOf m (handleStop m s).1 = false
  ∧ abortOf m (handleStop m s).1 = none
  ∧ (handleStop m s).2 = (abortOf m s).isSome
  ∧ genOf m.other (handleStop m s).1 = genOf m.other s
  ∧ abortOf m.other (handleStop m s).1 = abortOf m.other s
  ∧ (∀ emsg : Str, fetchCatchEvents ("AbortError".data) emsg = []) := by
  cases m <;>
    simp [handleStop, setGenOf, setAbortOf, genOf, abortOf, Mode.other,
      fetchCatchEvents]

def c8w_store : ChatStore :=
  { agentMessages := [c1w_msg0], normalMessages := []
    isAgentGenerating := true, isNormalGenerating := false
    agentAbortController := some (), normalAbortController := none }

theorem c8_witness :
    genOf .agent c8w_store = true
      ∧ genOf .agent (handleStop .agent c8w_store).1 = false
      ∧ abortOf .agent (handleStop .agent c8w_store).1 = none
      ∧ (handleStop .agent c8w_store).1.agentMessages = c8w_store.agentMessages
      ∧ (handleStop .agent c8w_store).2 = true
      ∧ fetchCatchEvents ("AbortError".data) ("aborted".data) = [] :=
  ⟨by rfl,
    (c8_stop_behavior .agent c8w_store (by rfl)).2.2.1,
    (c8_stop_behavior .agent c8w_store (by rfl)).2.2.2.1,
    (c8_stop_behavior .agent c8w_store (by rfl)).1,
    by rw [(c8_stop_behavior .agent c8w_store (by rfl)).2.2.2.2.1]; rfl,
    (c8_stop_behavior .agent c8w_store (by rfl)).2.2.2.2.2.2.2 ("aborted".data)⟩

/-- C9: `handleRetry` is a no-op when the current mode's history holds
fewer than two messages; otherwise it stages the content of the most
recent user message as the input to resubmit and truncates the history
by its final two messages — which, when the history ends in a
user/assistant pair, is exactly that final pair. -/
theorem c9_retry_spec (ui : UIState) (s : ChatStore) :
    ((msgsOf ui.chatMode s).length < 2 → handleRetry ui s = (ui, s))
  ∧ (∀ lastU : ChatMessage,
      2 ≤ (msgsOf ui.chatMode s).length →
      (msgsOf ui.chatMode s).reverse.find?
          (fun m => m.role == MessageRole.user) = some lastU →
      handleRetry ui s =
        ({ ui with inputValue := lastU.content },
          setMsgsOf ui.chatMode
            ((msgsOf ui.chatMode s).take ((msgsOf ui.chatMode s).length - 2)) s))
  ∧ (∀ (pre : List ChatMessage) (u a : ChatMessage),
      msgsOf ui.chatMode s = pre ++ [u, a] →
      (msgsOf ui.chatMode s).take ((msgsOf ui.chatMode s).length - 2) = pre) := by
  refine ⟨?_, ?_, ?_⟩
  · intro h
    unfold handleRetry
    dsimp only
    rw [if_pos h]
  · intro lastU h hfind
    unfold handleRetry
    dsimp only
    rw [if_neg (Nat.not_lt.mpr h), hfind]
  · intro pre u a heq
    rw [heq, List.length_append]
    simp [List.take_left]

def c9w_user : ChatMessage :=
  { id := ("u1".data), role := .user, content := ("hello".data)
    citations := none, original_citations := none, agentSteps := none
    timestamp := ("t".data), isStreaming := none, error := none }

def c9w_assistant : ChatMessage :=
  { id := ("a1".data), role := .assistant, content := ("answer".data)
    citations := some [], original_citations := none, agentSteps := some []
    timestamp := ("t".data), isStreaming := some false, error := none }

def c9w_store : ChatStore :=
  { agentMessages := [c9w_user, c9w_assistant], normalMessages := []
    isAgentGenerating := false, isNormalGenerating := false
    agentAbortController := none, normalAbortController := none }

theorem c9_witness :
    2 ≤ (msgsOf c6w_ui.chatMode c9w_store).length
      ∧ (msgsOf c6w_ui.chatMode c9w_store).reverse.find?
          (fun m => m.role == MessageRole.user) = some c9w_user
      ∧ msgsOf c6w_ui.chatMode c9w_store = [] ++ [c9w_user, c9w_assistant]
      ∧ handleRetry c6w_ui c9w_store =
          ({ c6w_ui with inputValue := c9w_user.content },
            setMsgsOf c6w_ui.chatMode
              ((msgsOf c6w_ui.chatMode c9w_store).take
                ((msgsOf c6w_ui.chatMode c9w_store).length - 2)) c9w_store)
      ∧ (msgsOf c6w_ui.chatMode c9w_store).take
          ((msgsOf c6w_ui.chatMode c9w_store).length - 2) = [] :=
  ⟨by decide, by rfl, by rfl,
    (c9_retry_spec c6w_ui c9w_store).2.1 c9w_user (by decide) (by rfl),
    (c9_retry_spec c6w_ui c9w_store).2.2 [] c9w_user c9w_assistant (by rfl)⟩

/-- C10: if the captured mode's history contains no message with the
submission's assistant id, every stream handler (reasoning step,
citation attach, content commit, done finalization, error finalization)
leaves both modes' histories exactly unchanged. -/
theorem c10_missing_message_noop (captured : Mode) (aid : Str)
    (ev : SessionEvent) (s : ChatStore)
    (h : ∀ msg ∈ msgsOf captured s, msg.id ≠ aid) :
    (applyStreamEvent captured aid ev s).agentMessages = s.agentMessages
  ∧ (applyStreamEvent captured aid ev s).normalMessages = s.normalMessages := by
  have heff : msgsEffect aid ev (msgsOf captured s) = msgsOf captured s :=
    msgsEffect_absent aid ev _ h
  have hcap : msgsOf captured (applyStreamEvent captured aid ev s) =
      msgsOf captured s := by
    rw [msgsOf_applyStreamEvent, if_pos rfl, heff]
  have hoth : msgsOf captured.other (applyStreamEvent captured aid ev s) =
      msgsOf captured.other s := by
    rw [msgsOf_applyStreamEvent,
      if_neg (by cases captured <;> simp [Mode.other])]
  cases captured
  · exact ⟨hcap, hoth⟩
  · exact ⟨hoth, hcap⟩

theorem c10_witness :
    (∀ msg ∈ msgsOf .agent c9w_store, msg.id ≠ ("zz".data))
      ∧ (applyStreamEvent .agent ("zz".data)
            (.thought { step := .thinking, content := ("x".data)
                        duration := none, cost := none } ("t2".data))
            c9w_store).agentMessages = c9w_store.agentMessages :=
  ⟨by decide,
    (c10_missing_message_noop .agent ("zz".data)
      (.thought { step := .thinking, content := ("x".data)
                  duration := none, cost := none } ("t2".data))
      c9w_store (by decide)).1⟩

end StreamPipeline
